import Mathlib

/-
Verification of the face-morphing core of `face-morph.js`.

JS `number` coordinates and colors are modelled as exact rationals (ℚ).
All arithmetic in the source is plain field arithmetic, so the translation
is literal; the single place where IEEE non-finiteness can arise inside
the core (the unguarded reciprocal in `pointInTriangle`) is modelled with
an explicit JS-value type carrying signed infinities and NaN.
Out-of-bounds JS array indexing (`pts2[i]` yielding `undefined`, whose
property access throws) is modelled as `Option.none`.
-/

/-- A 2D point, field names as in the source (`{x, y}`). -/
@[ext]
structure Point where
  x : ℚ
  y : ℚ
  deriving DecidableEq

instance : Inhabited Point := ⟨⟨0, 0⟩⟩

/-- An RGB color as produced by `sampleBilinear` (no alpha channel). -/
structure Color where
  r : ℚ
  g : ℚ
  b : ℚ
  deriving DecidableEq

/-- The 6 coefficients of an affine map, as in `computeAffine`. -/
structure Affine where
  a : ℚ
  b : ℚ
  c : ℚ
  d : ℚ
  e : ℚ
  f : ℚ
  deriving DecidableEq

/-- A triangle given by its 3 vertex points (the source passes arrays
    `tri[0], tri[1], tri[2]`). -/
structure Tri3 where
  p0 : Point
  p1 : Point
  p2 : Point
  deriving DecidableEq

/-- Embeds `interpolatePoints` (face-morph.js lines 99-104):
    `pts1.map((pt, i) => ({x: pt.x*(1-ratio) + pts2[i].x*ratio, ...}))`.
    When `pts1` is longer than `pts2`, the JS code evaluates
    `pts2[i].x` with `pts2[i] === undefined` and throws a TypeError;
    this failure is modelled as `none`. -/
def interpolatePoints : List Point → List Point → ℚ → Option (List Point)
  | [], _, _ => some []
  | _ :: _, [], _ => none
  | p :: ps, q :: qs, t =>
    (interpolatePoints ps qs t).map
      (fun rest => ⟨p.x * (1 - t) + q.x * t, p.y * (1 - t) + q.y * t⟩ :: rest)

/-- The Cramer-rule denominator of `computeAffine` (line 275):
    `(x1-x3)*(y2-y3) - (x2-x3)*(y1-y3)` for the source triangle. -/
def affineDenom (src : Tri3) : ℚ :=
  (src.p0.x - src.p2.x) * (src.p1.y - src.p2.y) -
    (src.p1.x - src.p2.x) * (src.p0.y - src.p2.y)

/-- Embeds `computeAffine` (lines 266-290): solves the affine map taking
    the `src` triangle to the `dst` triangle by Cramer's rule, returning
    the identity map when `|denom| < 1e-10`. -/
def computeAffine (src dst : Tri3) : Affine :=
  let x1 := src.p0.x
  let y1 := src.p0.y
  let x2 := src.p1.x
  let y2 := src.p1.y
  let x3 := src.p2.x
  let y3 := src.p2.y
  let u1 := dst.p0.x
  let v1 := dst.p0.y
  let u2 := dst.p1.x
  let v2 := dst.p1.y
  let u3 := dst.p2.x
  let v3 := dst.p2.y
  let denom := (x1 - x3) * (y2 - y3) - (x2 - x3) * (y1 - y3)
  if |denom| < 1 / 10000000000 then
    ⟨1, 0, 0, 0, 1, 0⟩
  else
    let a := ((u1 - u3) * (y2 - y3) - (u2 - u3) * (y1 - y3)) / denom
    let b := ((u2 - u3) * (x1 - x3) - (u1 - u3) * (x2 - x3)) / denom
    let c := u3 - a * x3 - b * y3
    let d := ((v1 - v3) * (y2 - y3) - (v2 - v3) * (y1 - y3)) / denom
    let e := ((v2 - v3) * (x1 - x3) - (v1 - v3) * (x2 - x3)) / denom
    let f := v3 - d * x3 - e * y3
    ⟨a, b, c, d, e, f⟩

/-- Embeds `applyAffine` (lines 295-300). -/
def applyAffine (M : Affine) (x y : ℚ) : Point :=
  ⟨M.a * x + M.b * y + M.c, M.d * x + M.e * y + M.f⟩

/-- A JS `number` as it can appear inside `pointInTriangle` after the
    unguarded reciprocal `1 / (dot00*dot11 - dot01*dot01)`: an exact finite
    value, a signed infinity, or NaN. -/
inductive JSVal where
  | fin : ℚ → JSVal
  | posInf : JSVal
  | negInf : JSVal
  | nan : JSVal
  deriving DecidableEq

/-- JS reciprocal `1 / q` for an exactly-computed `q`: division by (positive)
    zero yields `+Infinity` (the denominator `dot00*dot11 - dot01*dot01` is
    `+0` in JS when it is mathematically zero). -/
def jsRecip (q : ℚ) : JSVal :=
  if q = 0 then JSVal.posInf else JSVal.fin (1 / q)

/-- JS multiplication of a finite number with a possibly non-finite one
    (`factor * inv` in `pointInTriangle`). -/
def jsMul (q : ℚ) (v : JSVal) : JSVal :=
  match v with
  | JSVal.fin r => JSVal.fin (q * r)
  | JSVal.posInf =>
      if 0 < q then JSVal.posInf else if q < 0 then JSVal.negInf else JSVal.nan
  | JSVal.negInf =>
      if 0 < q then JSVal.negInf else if q < 0 then JSVal.posInf else JSVal.nan
  | JSVal.nan => JSVal.nan

/-- JS addition (`u + v` in `pointInTriangle`). -/
def jsAdd : JSVal → JSVal → JSVal
  | JSVal.fin a, JSVal.fin b => JSVal.fin (a + b)
  | JSVal.fin _, JSVal.posInf => JSVal.posInf
  | JSVal.fin _, JSVal.negInf => JSVal.negInf
  | JSVal.posInf, JSVal.fin _ => JSVal.posInf
  | JSVal.negInf, JSVal.fin _ => JSVal.negInf
  | JSVal.posInf, JSVal.posInf => JSVal.posInf
  | JSVal.negInf, JSVal.negInf => JSVal.negInf
  | JSVal.posInf, JSVal.negInf => JSVal.nan
  | JSVal.negInf, JSVal.posInf => JSVal.nan
  | JSVal.nan, _ => JSVal.nan
  | _, JSVal.nan => JSVal.nan

/-- JS comparison `a <= b`: any comparison with NaN is false. -/
def jsLe : JSVal → JSVal → Bool
  | JSVal.nan, _ => false
  | _, JSVal.nan => false
  | JSVal.fin a, JSVal.fin b => decide (a ≤ b)
  | JSVal.negInf, _ => true
  | _, JSVal.posInf => true
  | JSVal.posInf, _ => false
  | _, JSVal.negInf => false

/-- JS comparison `a >= b`. -/
def jsGe (a b : JSVal) : Bool := jsLe b a

/-- Embeds `pointInTriangle` (lines 305-321): the barycentric inside test
    `u >= 0 && v >= 0 && u + v <= 1`, with the unguarded reciprocal given
    JS float semantics via `JSVal`. -/
def pointInTriangle (p : Point) (tri : Tri3) : Bool :=
  let v0 : Point := ⟨tri.p2.x - tri.p0.x, tri.p2.y - tri.p0.y⟩
  let v1 : Point := ⟨tri.p1.x - tri.p0.x, tri.p1.y - tri.p0.y⟩
  let v2 : Point := ⟨p.x - tri.p0.x, p.y - tri.p0.y⟩
  let dot00 := v0.x * v0.x + v0.y * v0.y
  let dot01 := v0.x * v1.x + v0.y * v1.y
  let dot02 := v0.x * v2.x + v0.y * v2.y
  let dot11 := v1.x * v1.x + v1.y * v1.y
  let dot12 := v1.x * v2.x + v1.y * v2.y
  let inv := jsRecip (dot00 * dot11 - dot01 * dot01)
  let u := jsMul (dot11 * dot02 - dot01 * dot12) inv
  let v := jsMul (dot00 * dot12 - dot01 * dot02) inv
  jsGe u (JSVal.fin 0) && jsGe v (JSVal.fin 0) && jsLe (jsAdd u v) (JSVal.fin 1)

/-- The 2D cross product `(b - a) × (c - a)`; zero iff `a`, `b`, `c` are
    collinear. -/
def cross2 (a b c : Point) : ℚ :=
  (b.x - a.x) * (c.y - a.y) - (b.y - a.y) * (c.x - a.x)

/-- Embeds the inner `getPixel` closure of `sampleBilinear` (lines 342-349):
    reads channels r, g, b of pixel `(px, py)` from the flat RGBA buffer at
    index `(py*w + px)*4`. -/
def getPixel (w : ℕ) (imgData : ℤ → ℚ) (px py : ℤ) : Color :=
  let idx := (py * (w : ℤ) + px) * 4
  ⟨imgData idx, imgData (idx + 1), imgData (idx + 2)⟩

/-- The clamp of `sampleBilinear` (lines 331-332):
    `Math.max(0, Math.min(w - 1.001, x))`. -/
def clampedX (w : ℕ) (x : ℚ) : ℚ :=
  max 0 (min ((w : ℚ) - 1001 / 1000) x)

/-- The lower neighbor coordinate `x0 = Math.floor(x)` after clamping. -/
def sampleX0 (w : ℕ) (x : ℚ) : ℤ :=
  ⌊clampedX w x⌋

/-- The upper neighbor coordinate `x1 = Math.min(x0 + 1, w - 1)`. -/
def sampleX1 (w : ℕ) (x : ℚ) : ℤ :=
  min (sampleX0 w x + 1) ((w : ℤ) - 1)

/-- Embeds `sampleBilinear` (lines 326-361) over a `w × h` flat RGBA buffer
    (the source fixes `w = h = 400` via the morpher's output dimensions). -/
def sampleBilinear (w h : ℕ) (imgData : ℤ → ℚ) (x y : ℚ) : Color :=
  let xc := clampedX w x
  let yc := clampedX h y
  let x0 := sampleX0 w x
  let y0 := sampleX0 h y
  let x1 := sampleX1 w x
  let y1 := sampleX1 h y
  let fx := xc - (x0 : ℚ)
  let fy := yc - (y0 : ℚ)
  let p00 := getPixel w imgData x0 y0
  let p10 := getPixel w imgData x1 y0
  let p01 := getPixel w imgData x0 y1
  let p11 := getPixel w imgData x1 y1
  ⟨(p00.r * (1 - fx) + p10.r * fx) * (1 - fy) + (p01.r * (1 - fx) + p11.r * fx) * fy,
   (p00.g * (1 - fx) + p10.g * fx) * (1 - fy) + (p01.g * (1 - fx) + p11.g * fx) * fy,
   (p00.b * (1 - fx) + p10.b * fx) * (1 - fy) + (p01.b * (1 - fx) + p11.b * fx) * fy⟩

/-- The bounding-box minimum x of `computeDelaunay` (line 114):
    `Math.min(...points.map(p => p.x))` over a nonempty list. -/
def bboxMinX (ps : List Point) : ℚ :=
  match ps with
  | [] => 0
  | p :: rest => rest.foldl (fun m q => min m q.x) p.x

/-- The bounding-box maximum x (line 115). -/
def bboxMaxX (ps : List Point) : ℚ :=
  match ps with
  | [] => 0
  | p :: rest => rest.foldl (fun m q => max m q.x) p.x

/-- The bounding-box minimum y (line 116). -/
def bboxMinY (ps : List Point) : ℚ :=
  match ps with
  | [] => 0
  | p :: rest => rest.foldl (fun m q => min m q.y) p.y

/-- The bounding-box maximum y (line 117). -/
def bboxMaxY (ps : List Point) : ℚ :=
  match ps with
  | [] => 0
  | p :: rest => rest.foldl (fun m q => max m q.y) p.y

/-- Embeds the super-triangle construction of `computeDelaunay`
    (lines 119-125): `deltaMax = 2*max(dx, dy)` and vertices
    `p1 = (minX - deltaMax, minY - deltaMax)`,
    `p2 = (minX + 2*deltaMax, minY - deltaMax)`,
    `p3 = (minX + dx/2, maxY + 2*deltaMax)`. -/
def superTri (ps : List Point) : Tri3 :=
  let minX := bboxMinX ps
  let maxX := bboxMaxX ps
  let minY := bboxMinY ps
  let maxY := bboxMaxY ps
  let dx := maxX - minX
  let dy := maxY - minY
  let deltaMax := max dx dy * 2
  ⟨⟨minX - deltaMax, minY - deltaMax⟩,
   ⟨minX + deltaMax * 2, minY - deltaMax⟩,
   ⟨minX + dx / 2, maxY + deltaMax * 2⟩⟩

/-- A point lies strictly inside a triangle iff it is on the same strict
    side of all three edges (either winding); degenerate triangles have an
    empty interior. -/
def strictInterior (tri : Tri3) (q : Point) : Prop :=
  (0 < cross2 tri.p0 tri.p1 q ∧ 0 < cross2 tri.p1 tri.p2 q ∧
    0 < cross2 tri.p2 tri.p0 q) ∨
  (cross2 tri.p0 tri.p1 q < 0 ∧ cross2 tri.p1 tri.p2 q < 0 ∧
    cross2 tri.p2 tri.p0 q < 0)

/-- A triangle of point indices, field names as in the source
    (`{i, j, k}`). -/
structure Tri where
  i : ℕ
  j : ℕ
  k : ℕ
  deriving DecidableEq

/-- Embeds `inCircumcircle` (lines 193-209): the signed 3×3 determinant
    test with the orientation correction. -/
def inCircumcircle (p a b c : Point) : Bool :=
  let ax := a.x - p.x
  let ay := a.y - p.y
  let bx := b.x - p.x
  let by' := b.y - p.y
  let cx := c.x - p.x
  let cy := c.y - p.y
  let det := (ax * ax + ay * ay) * (bx * cy - cx * by') -
    (bx * bx + by' * by') * (ax * cy - cx * ay) +
    (cx * cx + cy * cy) * (ax * by' - bx * ay)
  let orient := (a.x - c.x) * (b.y - c.y) - (a.y - c.y) * (b.x - c.x)
  if 0 < orient then decide (0 < det) else decide (det < 0)

/-- The three directed edges `[i,j], [j,k], [k,i]` of a triangle
    (lines 145-149). -/
def triEdges (t : Tri) : List (ℕ × ℕ) :=
  [(t.i, t.j), (t.j, t.k), (t.k, t.i)]

/-- Undirected edge comparison (lines 161-162). -/
def edgeEq (e f : ℕ × ℕ) : Bool :=
  (e.1 == f.1 && e.2 == f.2) || (e.1 == f.2 && e.2 == f.1)

/-- The shared-edge scan of lines 152-168: does `e`, an edge of the bad
    triangle at position `selfIdx`, also occur in a *different* bad
    triangle?  JS compares triangle objects by reference (`other === tri`);
    positions in the triangle list model object identity faithfully, since
    every element of the JS list is a distinct freshly-allocated object. -/
def edgeSharedWithOther (bad : List (ℕ × Tri)) (selfIdx : ℕ) (e : ℕ × ℕ) : Bool :=
  bad.any (fun ot => ot.1 != selfIdx && (triEdges ot.2).any (fun oe => edgeEq e oe))

/-- One insertion step of the Bowyer-Watson loop (lines 131-182): find the
    bad triangles (circumcircle containing the new point), collect their
    boundary edges, drop the bad triangles and connect each boundary edge
    to the new point's index. -/
def insertPoint (allPoints : List Point) (tris : List Tri) (idx : ℕ)
    (pt : Point) : List Tri :=
  let indexed := tris.enum
  let bad := indexed.filter (fun it =>
    inCircumcircle pt (allPoints.getD it.2.i default)
      (allPoints.getD it.2.j default) (allPoints.getD it.2.k default))
  let polygon := (bad.map (fun it =>
    (triEdges it.2).filter (fun e => !(edgeSharedWithOther bad it.1 e)))).flatten
  let kept := (indexed.filter (fun it => !(bad.any (fun b => b.1 == it.1)))).map Prod.snd
  kept ++ polygon.map (fun e => ⟨e.1, e.2, idx⟩)

/-- Embeds `computeDelaunay` (lines 109-188): seed with the super-triangle
    (indices `n, n+1, n+2`), insert the points one by one, then keep only
    triangles all of whose indices are `< n`. -/
def computeDelaunay (points : List Point) : List (ℕ × ℕ × ℕ) :=
  let n := points.length
  if n < 3 then []
  else
    let st := superTri points
    let allPoints := points ++ [st.p0, st.p1, st.p2]
    let final := (List.range n).foldl
      (fun tris i => insertPoint allPoints tris i (points.getD i default))
      [⟨n, n + 1, n + 2⟩]
    (final.filter (fun t =>
      decide (t.i < n) && decide (t.j < n) && decide (t.k < n))).map
      (fun t => (t.i, t.j, t.k))

/-- The structural invariant of the insertion loop: after the first `m`
    points are inserted, every triangle's vertices are either
    already-inserted input indices (`< m`) or super-triangle indices
    (`n ≤ · < n+3`), and the three vertices are pairwise distinct. -/
def TriOK (n m : ℕ) (t : Tri) : Prop :=
  (t.i < m ∨ (n ≤ t.i ∧ t.i < n + 3)) ∧
  (t.j < m ∨ (n ≤ t.j ∧ t.j < n + 3)) ∧
  (t.k < m ∨ (n ≤ t.k ∧ t.k < n + 3)) ∧
  t.i ≠ t.j ∧ t.i ≠ t.k ∧ t.j ≠ t.k

/-- The inclusive integer range `lo..hi` traversed by the rasterization
    loops (lines 238-239). -/
def intRange (lo hi : ℤ) : List ℤ :=
  (List.range (hi + 1 - lo).toNat).map (fun k => lo + k)

/-- The write of one blended RGBA pixel into the flat output buffer at
    index `idx = (y*w + x)*4` (lines 254-258); alpha is set to 255. -/
def writePixel (w : ℕ) (buf : ℤ → ℚ) (x y : ℤ) (r g b : ℚ) : ℤ → ℚ :=
  fun n =>
    if n = (y * (w : ℤ) + x) * 4 then r
    else if n = (y * (w : ℤ) + x) * 4 + 1 then g
    else if n = (y * (w : ℤ) + x) * 4 + 2 then b
    else if n = (y * (w : ℤ) + x) * 4 + 3 then 255
    else buf n

/-- The body of the per-pixel loop of `warpTriangle` (lines 240-258): skip
    pixels outside the canvas or outside the destination triangle;
    otherwise inverse-map through both affine transforms, sample both
    sources bilinearly, blend by `t` and write the pixel.  (The
    `Uint8ClampedArray` byte rounding of the stored values is abstracted;
    it does not affect which indices are written.) -/
def warpStep (w h : ℕ) (img1 img2 : ℤ → ℚ) (M1 M2 : Affine) (dstTri : Tri3)
    (t : ℚ) (buf : ℤ → ℚ) (q : ℤ × ℤ) : ℤ → ℚ :=
  if 0 ≤ q.1 ∧ q.1 < (w : ℤ) ∧ 0 ≤ q.2 ∧ q.2 < (h : ℤ) ∧
      pointInTriangle ⟨(q.1 : ℚ), (q.2 : ℚ)⟩ dstTri = true then
    let s1 := applyAffine M1 (q.1 : ℚ) (q.2 : ℚ)
    let s2 := applyAffine M2 (q.1 : ℚ) (q.2 : ℚ)
    let c1 := sampleBilinear w h img1 s1.x s1.y
    let c2 := sampleBilinear w h img2 s2.x s2.y
    writePixel w buf q.1 q.2 (c1.r * (1 - t) + c2.r * t)
      (c1.g * (1 - t) + c2.g * t) (c1.b * (1 - t) + c2.b * t)
  else buf

/-- Embeds `warpTriangle` (lines 226-261): iterate over the integer
    bounding box of the destination triangle (y outer, x inner), applying
    `warpStep` to the output buffer.  The two source buffers are only ever
    read (`sampleBilinear`), never written. -/
def warpTriangle (w h : ℕ) (img1 : ℤ → ℚ) (srcTri1 : Tri3) (img2 : ℤ → ℚ)
    (srcTri2 : Tri3) (out : ℤ → ℚ) (dstTri : Tri3) (t : ℚ) : ℤ → ℚ :=
  let minX := ⌊min (min dstTri.p0.x dstTri.p1.x) dstTri.p2.x⌋
  let maxX := ⌈max (max dstTri.p0.x dstTri.p1.x) dstTri.p2.x⌉
  let minY := ⌊min (min dstTri.p0.y dstTri.p1.y) dstTri.p2.y⌋
  let maxY := ⌈max (max dstTri.p0.y dstTri.p1.y) dstTri.p2.y⌉
  let M1 := computeAffine dstTri srcTri1
  let M2 := computeAffine dstTri srcTri2
  let pixels := ((intRange minY maxY).map (fun y =>
    (intRange minX maxX).map (fun x => (x, y)))).flatten
  pixels.foldl (warpStep w h img1 img2 M1 M2 dstTri t) out

/-- Claim C3: whenever the Cramer-rule determinant of the source triangle
    satisfies `|denom| < 1e-10` (in particular for every perfectly collinear
    source triangle, where `denom = 0`), `computeAffine` returns exactly the
    identity map `(1,0,0,0,1,0)` regardless of the destination triangle.
    In this exact-rational model no NaN or Infinity can arise. -/
theorem computeAffine_degenerate_identity (src dst : Tri3)
    (h : |affineDenom src| < 1 / 10000000000) :
    computeAffine src dst = ⟨1, 0, 0, 0, 1, 0⟩ := by
  have h' : |(src.p0.x - src.p2.x) * (src.p1.y - src.p2.y) -
      (src.p1.x - src.p2.x) * (src.p0.y - src.p2.y)| < 1 / 10000000000 := h
  simp only [computeAffine]
  rw [if_pos h']

/-- Witness for C3 at a perfectly collinear source triangle. -/
theorem computeAffine_degenerate_identity_witness :
    computeAffine ⟨⟨0, 0⟩, ⟨1, 1⟩, ⟨2, 2⟩⟩ ⟨⟨3, 5⟩, ⟨7, 11⟩, ⟨13, 17⟩⟩ =
      ⟨1, 0, 0, 0, 1, 0⟩ :=
  computeAffine_degenerate_identity ⟨⟨0, 0⟩, ⟨1, 1⟩, ⟨2, 2⟩⟩
    ⟨⟨3, 5⟩, ⟨7, 11⟩, ⟨13, 17⟩⟩ (by norm_num [affineDenom])

/-- Claim C2: for triangles whose solver denominator satisfies
    `|denom| ≥ 1e-10`, applying the affine map from `computeAffine A B` to
    each vertex of `A` reproduces the corresponding vertex of `B` (exactly,
    in this exact-rational model; hence within any floating tolerance). -/
theorem computeAffine_roundtrip (A B : Tri3)
    (h : 1 / 10000000000 ≤ |affineDenom A|) :
    applyAffine (computeAffine A B) A.p0.x A.p0.y = B.p0 ∧
      applyAffine (computeAffine A B) A.p1.x A.p1.y = B.p1 ∧
      applyAffine (computeAffine A B) A.p2.x A.p2.y = B.p2 := by
  have hne : affineDenom A ≠ 0 := by
    intro h0
    rw [h0] at h
    norm_num at h
  have hlt : ¬ |(A.p0.x - A.p2.x) * (A.p1.y - A.p2.y) -
      (A.p1.x - A.p2.x) * (A.p0.y - A.p2.y)| < 1 / 10000000000 :=
    not_lt.mpr h
  have hd : (A.p0.x - A.p2.x) * (A.p1.y - A.p2.y) -
      (A.p1.x - A.p2.x) * (A.p0.y - A.p2.y) ≠ 0 := hne
  simp only [computeAffine, applyAffine]
  rw [if_neg hlt]
  refine ⟨?_, ?_, ?_⟩ <;> apply Point.ext <;> · field_simp
                                                try ring

/-- Witness for C2 at a concrete nondegenerate pair of triangles. -/
theorem computeAffine_roundtrip_witness :
    applyAffine (computeAffine ⟨⟨0, 0⟩, ⟨1, 0⟩, ⟨0, 1⟩⟩ ⟨⟨5, 6⟩, ⟨7, 8⟩, ⟨9, 10⟩⟩)
        (0 : ℚ) (0 : ℚ) = ⟨5, 6⟩ :=
  (computeAffine_roundtrip ⟨⟨0, 0⟩, ⟨1, 0⟩, ⟨0, 1⟩⟩ ⟨⟨5, 6⟩, ⟨7, 8⟩, ⟨9, 10⟩⟩
    (by norm_num [affineDenom])).1

/-- Claim C4: for equal-length point sequences, interpolating with t = 0
    returns the first sequence exactly and t = 1 returns the second
    sequence exactly. -/
theorem interpolatePoints_endpoints (pts1 pts2 : List Point)
    (h : pts1.length = pts2.length) :
    interpolatePoints pts1 pts2 0 = some pts1 ∧
      interpolatePoints pts1 pts2 1 = some pts2 := by
  induction pts1 generalizing pts2 with
  | nil =>
    cases pts2 with
    | nil => simp [interpolatePoints]
    | cons q qs => simp at h
  | cons p ps ih =>
    cases pts2 with
    | nil => simp at h
    | cons q qs =>
      simp only [List.length_cons, Nat.succ_inj] at h
      obtain ⟨ih0, ih1⟩ := ih qs h
      constructor
      · simp [interpolatePoints, ih0]
      · simp [interpolatePoints, ih1]

/-- Witness for C4 at concrete one-point sequences. -/
theorem interpolatePoints_endpoints_witness :
    interpolatePoints [⟨1, 2⟩] [⟨3, 4⟩] 0 = some [⟨1, 2⟩] ∧
      interpolatePoints [⟨1, 2⟩] [⟨3, 4⟩] 1 = some [⟨3, 4⟩] :=
  interpolatePoints_endpoints [⟨1, 2⟩] [⟨3, 4⟩] (by decide)

/-- Claim C9: when the first point sequence is strictly longer than the
    second (mismatched landmark counts), interpolation fails fast with an
    error signal (the JS TypeError on `undefined.x`, modelled as `none`)
    instead of producing a result from out-of-bounds reads. -/
theorem interpolatePoints_mismatch_fails (pts1 pts2 : List Point) (t : ℚ)
    (h : pts2.length < pts1.length) :
    interpolatePoints pts1 pts2 t = none := by
  induction pts1 generalizing pts2 with
  | nil => simp at h
  | cons p ps ih =>
    cases pts2 with
    | nil => simp [interpolatePoints]
    | cons q qs =>
      simp only [List.length_cons, Nat.succ_lt_succ_iff] at h
      simp [interpolatePoints, ih qs h]

/-- Witness for C9 at a concrete mismatched pair. -/
theorem interpolatePoints_mismatch_fails_witness :
    interpolatePoints [⟨0, 0⟩, ⟨1, 1⟩] [⟨2, 3⟩] (1 / 2) = none :=
  interpolatePoints_mismatch_fails [⟨0, 0⟩, ⟨1, 1⟩] [⟨2, 3⟩] (1 / 2) (by decide)

/-- Multiplying any finite value by `+Infinity` yields a non-finite value
    (`+Infinity`, `-Infinity`, or NaN for a zero factor). -/
theorem jsMul_posInf_nonfin (a : ℚ) :
    jsMul a JSVal.posInf = JSVal.posInf ∨ jsMul a JSVal.posInf = JSVal.negInf ∨
      jsMul a JSVal.posInf = JSVal.nan := by
  simp only [jsMul]
  rcases lt_trichotomy a 0 with h | h | h
  · rw [if_neg (by linarith), if_pos h]
    exact Or.inr (Or.inl rfl)
  · rw [h, if_neg (lt_irrefl 0), if_neg (lt_irrefl 0)]
    exact Or.inr (Or.inr rfl)
  · rw [if_pos h]
    exact Or.inl rfl

/-- The barycentric inside test is false whenever both coordinates are
    non-finite. -/
theorem insideTest_false_of_nonfin (u v : JSVal)
    (hu : u = JSVal.posInf ∨ u = JSVal.negInf ∨ u = JSVal.nan)
    (hv : v = JSVal.posInf ∨ v = JSVal.negInf ∨ v = JSVal.nan) :
    (jsGe u (JSVal.fin 0) && jsGe v (JSVal.fin 0) &&
      jsLe (jsAdd u v) (JSVal.fin 1)) = false := by
  rcases hu with h | h | h <;> rcases hv with h2 | h2 | h2 <;>
    subst h <;> subst h2 <;> rfl

/-- Claim C10: for a degenerate triangle whose three vertices are collinear
    (so that the barycentric denominator `dot00*dot11 - dot01*dot01` is
    zero and the unguarded reciprocal is non-finite), `pointInTriangle`
    returns `false` for every query point: it is total, never crashes, and
    never classifies any point as inside such a triangle. -/
theorem pointInTriangle_degenerate_false (tri : Tri3)
    (h : cross2 tri.p0 tri.p1 tri.p2 = 0) (p : Point) :
    pointInTriangle p tri = false := by
  simp only [pointInTriangle]
  have hz : (tri.p2.x - tri.p0.x) * (tri.p1.y - tri.p0.y) -
      (tri.p2.y - tri.p0.y) * (tri.p1.x - tri.p0.x) = 0 := by
    have hc : (tri.p2.x - tri.p0.x) * (tri.p1.y - tri.p0.y) -
        (tri.p2.y - tri.p0.y) * (tri.p1.x - tri.p0.x) =
        -(cross2 tri.p0 tri.p1 tri.p2) := by
      simp only [cross2]
      ring
    rw [hc, h, neg_zero]
  have hden : ((tri.p2.x - tri.p0.x) * (tri.p2.x - tri.p0.x) +
      (tri.p2.y - tri.p0.y) * (tri.p2.y - tri.p0.y)) *
      ((tri.p1.x - tri.p0.x) * (tri.p1.x - tri.p0.x) +
        (tri.p1.y - tri.p0.y) * (tri.p1.y - tri.p0.y)) -
      ((tri.p2.x - tri.p0.x) * (tri.p1.x - tri.p0.x) +
        (tri.p2.y - tri.p0.y) * (tri.p1.y - tri.p0.y)) *
      ((tri.p2.x - tri.p0.x) * (tri.p1.x - tri.p0.x) +
        (tri.p2.y - tri.p0.y) * (tri.p1.y - tri.p0.y)) = 0 := by
    have hsq : ((tri.p2.x - tri.p0.x) * (tri.p2.x - tri.p0.x) +
        (tri.p2.y - tri.p0.y) * (tri.p2.y - tri.p0.y)) *
        ((tri.p1.x - tri.p0.x) * (tri.p1.x - tri.p0.x) +
          (tri.p1.y - tri.p0.y) * (tri.p1.y - tri.p0.y)) -
        ((tri.p2.x - tri.p0.x) * (tri.p1.x - tri.p0.x) +
          (tri.p2.y - tri.p0.y) * (tri.p1.y - tri.p0.y)) *
        ((tri.p2.x - tri.p0.x) * (tri.p1.x - tri.p0.x) +
          (tri.p2.y - tri.p0.y) * (tri.p1.y - tri.p0.y)) =
        ((tri.p2.x - tri.p0.x) * (tri.p1.y - tri.p0.y) -
          (tri.p2.y - tri.p0.y) * (tri.p1.x - tri.p0.x)) *
        ((tri.p2.x - tri.p0.x) * (tri.p1.y - tri.p0.y) -
          (tri.p2.y - tri.p0.y) * (tri.p1.x - tri.p0.x)) := by
      ring
    rw [hsq, hz, mul_zero]
  rw [hden]
  have hrec : jsRecip 0 = JSVal.posInf := by
    simp [jsRecip]
  rw [hrec]
  exact insideTest_false_of_nonfin _ _ (jsMul_posInf_nonfin _) (jsMul_posInf_nonfin _)

/-- Witness for C10 at a collinear triangle and a concrete query point. -/
theorem pointInTriangle_degenerate_false_witness :
    pointInTriangle ⟨5, 0⟩ ⟨⟨0, 0⟩, ⟨1, 1⟩, ⟨2, 2⟩⟩ = false :=
  pointInTriangle_degenerate_false ⟨⟨0, 0⟩, ⟨1, 1⟩, ⟨2, 2⟩⟩
    (by norm_num [cross2]) ⟨5, 0⟩

/-- The clamped coordinate is nonnegative. -/
theorem clampedX_nonneg (w : ℕ) (x : ℚ) : 0 ≤ clampedX w x :=
  le_max_left _ _

/-- For a buffer with at least one column, the clamped coordinate is at most
    `w - 1`. -/
theorem clampedX_le (w : ℕ) (hw : 1 ≤ w) (x : ℚ) : clampedX w x ≤ (w : ℚ) - 1 := by
  unfold clampedX
  apply max_le
  · have h1 : (1 : ℚ) ≤ (w : ℚ) := by exact_mod_cast hw
    linarith
  · calc min ((w : ℚ) - 1001 / 1000) x ≤ (w : ℚ) - 1001 / 1000 := min_le_left _ _
      _ ≤ (w : ℚ) - 1 := by linarith

/-- The lower neighbor coordinate is nonnegative. -/
theorem sampleX0_nonneg (w : ℕ) (x : ℚ) : 0 ≤ sampleX0 w x := by
  unfold sampleX0
  exact Int.le_floor.mpr (by exact_mod_cast clampedX_nonneg w x)

/-- The lower neighbor coordinate is at most `w - 1`. -/
theorem sampleX0_le (w : ℕ) (hw : 1 ≤ w) (x : ℚ) : sampleX0 w x ≤ (w : ℤ) - 1 := by
  unfold sampleX0
  have h2 : (↑⌊clampedX w x⌋ : ℚ) ≤ (w : ℚ) - 1 :=
    le_trans (Int.floor_le _) (clampedX_le w hw x)
  exact_mod_cast h2

/-- The two neighbor coordinates are ordered. -/
theorem sampleX0_le_sampleX1 (w : ℕ) (hw : 1 ≤ w) (x : ℚ) :
    sampleX0 w x ≤ sampleX1 w x := by
  unfold sampleX1
  exact le_min (by omega) (sampleX0_le w hw x)

/-- The upper neighbor coordinate is at most `w - 1`. -/
theorem sampleX1_le (w : ℕ) (x : ℚ) : sampleX1 w x ≤ (w : ℤ) - 1 :=
  min_le_right _ _

/-- The fractional offset of the clamped coordinate lies in `[0, 1]`. -/
theorem sampleFract_bounds (w : ℕ) (x : ℚ) :
    0 ≤ clampedX w x - (sampleX0 w x : ℚ) ∧
      clampedX w x - (sampleX0 w x : ℚ) ≤ 1 := by
  unfold sampleX0
  constructor
  · have := Int.floor_le (clampedX w x)
    linarith
  · have := Int.lt_floor_add_one (clampedX w x)
    push_cast at this ⊢
    linarith

/-- Convexity: a linear blend of two channel values in `[0, 255]` with a
    weight in `[0, 1]` stays in `[0, 255]`. -/
theorem lerp_bounds {a b t : ℚ} (ha0 : 0 ≤ a) (ha1 : a ≤ 255) (hb0 : 0 ≤ b)
    (hb1 : b ≤ 255) (ht0 : 0 ≤ t) (ht1 : t ≤ 1) :
    0 ≤ a * (1 - t) + b * t ∧ a * (1 - t) + b * t ≤ 255 := by
  constructor <;> nlinarith

/-- Reading a pixel at in-range coordinates reads only in-range flat indices,
    so all channels inherit the buffer's `[0, 255]` bounds. -/
theorem getPixel_bounds (w h : ℕ) (imgData : ℤ → ℚ)
    (hdata : ∀ n : ℤ, 0 ≤ n → n < 4 * w * h → 0 ≤ imgData n ∧ imgData n ≤ 255)
    (px py : ℤ) (hx0 : 0 ≤ px) (hx1 : px ≤ (w : ℤ) - 1) (hy0 : 0 ≤ py)
    (hy1 : py ≤ (h : ℤ) - 1) :
    (0 ≤ (getPixel w imgData px py).r ∧ (getPixel w imgData px py).r ≤ 255) ∧
      (0 ≤ (getPixel w imgData px py).g ∧ (getPixel w imgData px py).g ≤ 255) ∧
      (0 ≤ (getPixel w imgData px py).b ∧ (getPixel w imgData px py).b ≤ 255) := by
  have hwnn : (0 : ℤ) ≤ (w : ℤ) := Int.ofNat_nonneg w
  have hpyw : py * (w : ℤ) ≤ ((h : ℤ) - 1) * (w : ℤ) :=
    mul_le_mul_of_nonneg_right hy1 hwnn
  have hidx0 : 0 ≤ (py * (w : ℤ) + px) * 4 := by
    have : 0 ≤ py * (w : ℤ) := mul_nonneg hy0 hwnn
    linarith
  have hidxlt : (py * (w : ℤ) + px) * 4 + 2 < 4 * w * h := by
    nlinarith
  simp only [getPixel]
  exact ⟨hdata _ hidx0 (by linarith), hdata _ (by linarith) (by linarith),
    hdata _ (by linarith) (by linarith)⟩

/-- Claim C5: for every coordinate pair (including negative values and
    exactly `(w-1, h-1)`) and every `w × h` buffer (with at least one pixel)
    whose channel values lie in `[0, 255]`, `sampleBilinear` reads only the
    4 neighbor pixels at in-range coordinates — `0 ≤ x0 ≤ x1 ≤ w-1` and
    `0 ≤ y0 ≤ y1 ≤ h-1`, hence flat indices inside the buffer — and
    returns r, g, b channels within `[0, 255]` (finite, being exact
    rationals). -/
theorem sampleBilinear_safe (w h : ℕ) (hw : 1 ≤ w) (hh : 1 ≤ h)
    (imgData : ℤ → ℚ)
    (hdata : ∀ n : ℤ, 0 ≤ n → n < 4 * w * h → 0 ≤ imgData n ∧ imgData n ≤ 255)
    (x y : ℚ) :
    (0 ≤ sampleX0 w x ∧ sampleX0 w x ≤ sampleX1 w x ∧
        sampleX1 w x ≤ (w : ℤ) - 1 ∧
      0 ≤ sampleX0 h y ∧ sampleX0 h y ≤ sampleX1 h y ∧
        sampleX1 h y ≤ (h : ℤ) - 1) ∧
    (0 ≤ (sampleBilinear w h imgData x y).r ∧
        (sampleBilinear w h imgData x y).r ≤ 255) ∧
    (0 ≤ (sampleBilinear w h imgData x y).g ∧
        (sampleBilinear w h imgData x y).g ≤ 255) ∧
    (0 ≤ (sampleBilinear w h imgData x y).b ∧
        (sampleBilinear w h imgData x y).b ≤ 255) := by
  have hx00 := sampleX0_nonneg w x
  have hx01 := sampleX0_le w hw x
  have hx10 : 0 ≤ sampleX1 w x := le_trans hx00 (sampleX0_le_sampleX1 w hw x)
  have hx11 := sampleX1_le w x
  have hy00 := sampleX0_nonneg h y
  have hy01 := sampleX0_le h hh y
  have hy10 : 0 ≤ sampleX1 h y := le_trans hy00 (sampleX0_le_sampleX1 h hh y)
  have hy11 := sampleX1_le h y
  have hfx := sampleFract_bounds w x
  have hfy := sampleFract_bounds h y
  have hp00 := getPixel_bounds w h imgData hdata _ _ hx00 hx01 hy00 hy01
  have hp10 := getPixel_bounds w h imgData hdata _ _ hx10 hx11 hy00 hy01
  have hp01 := getPixel_bounds w h imgData hdata _ _ hx00 hx01 hy10 hy11
  have hp11 := getPixel_bounds w h imgData hdata _ _ hx10 hx11 hy10 hy11
  refine ⟨⟨hx00, sampleX0_le_sampleX1 w hw x, hx11, hy00,
    sampleX0_le_sampleX1 h hh y, hy11⟩, ?_, ?_, ?_⟩
  · simp only [sampleBilinear]
    have top := lerp_bounds hp00.1.1 hp00.1.2 hp10.1.1 hp10.1.2 hfx.1 hfx.2
    have bot := lerp_bounds hp01.1.1 hp01.1.2 hp11.1.1 hp11.1.2 hfx.1 hfx.2
    exact lerp_bounds top.1 top.2 bot.1 bot.2 hfy.1 hfy.2
  · simp only [sampleBilinear]
    have top := lerp_bounds hp00.2.1.1 hp00.2.1.2 hp10.2.1.1 hp10.2.1.2 hfx.1 hfx.2
    have bot := lerp_bounds hp01.2.1.1 hp01.2.1.2 hp11.2.1.1 hp11.2.1.2 hfx.1 hfx.2
    exact lerp_bounds top.1 top.2 bot.1 bot.2 hfy.1 hfy.2
  · simp only [sampleBilinear]
    have top := lerp_bounds hp00.2.2.1 hp00.2.2.2 hp10.2.2.1 hp10.2.2.2 hfx.1 hfx.2
    have bot := lerp_bounds hp01.2.2.1 hp01.2.2.2 hp11.2.2.1 hp11.2.2.2 hfx.1 hfx.2
    exact lerp_bounds top.1 top.2 bot.1 bot.2 hfy.1 hfy.2

/-- Witness for C5: a 1×1 all-zero buffer sampled at the out-of-range
    coordinate (-5, 1000). -/
theorem sampleBilinear_safe_witness :
    0 ≤ (sampleBilinear 1 1 (fun _ => 0) (-5) 1000).r ∧
      (sampleBilinear 1 1 (fun _ => 0) (-5) 1000).r ≤ 255 :=
  (sampleBilinear_safe 1 1 (le_refl 1) (le_refl 1) (fun _ => 0)
    (fun _ _ _ => ⟨le_refl 0, by norm_num⟩) (-5) 1000).2.1

/-- Folding `min` over a list only decreases the accumulator. -/
theorem foldl_min_le_init (f : Point → ℚ) (l : List Point) (a : ℚ) :
    l.foldl (fun m q => min m (f q)) a ≤ a := by
  induction l generalizing a with
  | nil => exact le_refl a
  | cons b l ih =>
    exact le_trans (ih (min a (f b))) (min_le_left _ _)

/-- Folding `min` over a list bounds every member. -/
theorem foldl_min_le_mem (f : Point → ℚ) (l : List Point) (a : ℚ) (q : Point)
    (hq : q ∈ l) : l.foldl (fun m q => min m (f q)) a ≤ f q := by
  induction l generalizing a with
  | nil => cases hq
  | cons b l ih =>
    rcases List.mem_cons.mp hq with h | h
    · subst h
      exact le_trans (foldl_min_le_init f l (min a (f q))) (min_le_right _ _)
    · exact ih _ h

/-- Folding `max` over a list only increases the accumulator. -/
theorem init_le_foldl_max (f : Point → ℚ) (l : List Point) (a : ℚ) :
    a ≤ l.foldl (fun m q => max m (f q)) a := by
  induction l generalizing a with
  | nil => exact le_refl a
  | cons b l ih =>
    exact le_trans (le_max_left _ _) (ih (max a (f b)))

/-- Folding `max` over a list dominates every member. -/
theorem mem_le_foldl_max (f : Point → ℚ) (l : List Point) (a : ℚ) (q : Point)
    (hq : q ∈ l) : f q ≤ l.foldl (fun m q => max m (f q)) a := by
  induction l generalizing a with
  | nil => cases hq
  | cons b l ih =>
    rcases List.mem_cons.mp hq with h | h
    · subst h
      exact le_trans (le_max_right _ _) (init_le_foldl_max f l (max a (f q)))
    · exact ih _ h

/-- Every member's x is at least the bounding-box minimum. -/
theorem bboxMinX_le (ps : List Point) (q : Point) (hq : q ∈ ps) :
    bboxMinX ps ≤ q.x := by
  cases ps with
  | nil => cases hq
  | cons p rest =>
    rcases List.mem_cons.mp hq with h | h
    · subst h
      exact foldl_min_le_init (fun r => r.x) rest q.x
    · exact foldl_min_le_mem (fun r => r.x) rest p.x q h

/-- Every member's x is at most the bounding-box maximum. -/
theorem le_bboxMaxX (ps : List Point) (q : Point) (hq : q ∈ ps) :
    q.x ≤ bboxMaxX ps := by
  cases ps with
  | nil => cases hq
  | cons p rest =>
    rcases List.mem_cons.mp hq with h | h
    · subst h
      exact init_le_foldl_max (fun r => r.x) rest q.x
    · exact mem_le_foldl_max (fun r => r.x) rest p.x q h

/-- Every member's y is at least the bounding-box minimum. -/
theorem bboxMinY_le (ps : List Point) (q : Point) (hq : q ∈ ps) :
    bboxMinY ps ≤ q.y := by
  cases ps with
  | nil => cases hq
  | cons p rest =>
    rcases List.mem_cons.mp hq with h | h
    · subst h
      exact foldl_min_le_init (fun r => r.y) rest q.y
    · exact foldl_min_le_mem (fun r => r.y) rest p.y q h

/-- Every member's y is at most the bounding-box maximum. -/
theorem le_bboxMaxY (ps : List Point) (q : Point) (hq : q ∈ ps) :
    q.y ≤ bboxMaxY ps := by
  cases ps with
  | nil => cases hq
  | cons p rest =>
    rcases List.mem_cons.mp hq with h | h
    · subst h
      exact init_le_foldl_max (fun r => r.y) rest q.y
    · exact mem_le_foldl_max (fun r => r.y) rest p.y q h

/-- Counterexample to C6 as stated: for the input point set consisting of
    three copies of the origin (a legal `computeDelaunay` input of length
    3), the super-triangle degenerates to a single point and contains no
    point in its interior — in particular not the input point itself. -/
theorem superTri_contains_counterexample :
    (⟨0, 0⟩ : Point) ∈ ([⟨0, 0⟩, ⟨0, 0⟩, ⟨0, 0⟩] : List Point) ∧
      3 ≤ ([⟨0, 0⟩, ⟨0, 0⟩, ⟨0, 0⟩] : List Point).length ∧
      ¬ strictInterior (superTri [⟨0, 0⟩, ⟨0, 0⟩, ⟨0, 0⟩]) ⟨0, 0⟩ := by
  refine ⟨List.mem_cons_self _ _, by simp, ?_⟩
  norm_num [strictInterior, superTri, cross2, bboxMinX, bboxMaxX, bboxMinY,
    bboxMaxY, List.foldl]

/-- Claim C6 (amended): for every input point set whose bounding box is
    nondegenerate (`max(dx, dy) > 0`), every input point lies strictly in
    the interior of the super-triangle constructed by `computeDelaunay`. -/
theorem superTri_contains (ps : List Point)
    (hnd : 0 < max (bboxMaxX ps - bboxMinX ps) (bboxMaxY ps - bboxMinY ps))
    (q : Point) (hq : q ∈ ps) : strictInterior (superTri ps) q := by
  have h1 := bboxMinX_le ps q hq
  have h2 := le_bboxMaxX ps q hq
  have h3 := bboxMinY_le ps q hq
  have h4 := le_bboxMaxY ps q hq
  have hdxM : bboxMaxX ps - bboxMinX ps ≤
      max (bboxMaxX ps - bboxMinX ps) (bboxMaxY ps - bboxMinY ps) :=
    le_max_left _ _
  have hdyM : bboxMaxY ps - bboxMinY ps ≤
      max (bboxMaxX ps - bboxMinX ps) (bboxMaxY ps - bboxMinY ps) :=
    le_max_right _ _
  simp only [strictInterior, superTri, cross2]
  left
  set M := max (bboxMaxX ps - bboxMinX ps) (bboxMaxY ps - bboxMinY ps) with hM
  refine ⟨?_, ?_, ?_⟩
  · nlinarith [mul_pos hnd hnd]
  · nlinarith [mul_pos hnd hnd, mul_nonneg (sub_nonneg.mpr h1) (sub_nonneg.mpr h3),
      mul_nonneg (sub_nonneg.mpr h1) hnd.le, mul_nonneg (sub_nonneg.mpr h3) hnd.le,
      mul_le_mul_of_nonneg_right (le_trans (by linarith : q.x - bboxMinX ps ≤ bboxMaxX ps - bboxMinX ps) hdxM) hnd.le,
      mul_le_mul_of_nonneg_right (le_trans (by linarith : q.y - bboxMinY ps ≤ bboxMaxY ps - bboxMinY ps) hdyM) hnd.le,
      mul_le_mul_of_nonneg_left hdyM (sub_nonneg.mpr h1),
      mul_le_mul_of_nonneg_left hdxM (sub_nonneg.mpr h3)]
  · nlinarith [mul_pos hnd hnd, mul_nonneg (sub_nonneg.mpr h1) (sub_nonneg.mpr h3),
      mul_nonneg (sub_nonneg.mpr h1) hnd.le, mul_nonneg (sub_nonneg.mpr h3) hnd.le,
      mul_le_mul_of_nonneg_right (le_trans (by linarith : q.x - bboxMinX ps ≤ bboxMaxX ps - bboxMinX ps) hdxM) hnd.le,
      mul_le_mul_of_nonneg_right (le_trans (by linarith : q.y - bboxMinY ps ≤ bboxMaxY ps - bboxMinY ps) hdyM) hnd.le,
      mul_le_mul_of_nonneg_left hdyM (sub_nonneg.mpr h1),
      mul_le_mul_of_nonneg_left hdxM (sub_nonneg.mpr h3)]

/-- Witness for the amended C6 at a concrete nondegenerate point set. -/
theorem superTri_contains_witness :
    strictInterior (superTri [⟨0, 0⟩, ⟨4, 0⟩, ⟨0, 4⟩]) ⟨4, 0⟩ :=
  superTri_contains [⟨0, 0⟩, ⟨4, 0⟩, ⟨0, 4⟩]
    (by norm_num [bboxMaxX, bboxMinX, bboxMaxY, bboxMinY, List.foldl])
    ⟨4, 0⟩ (by simp)

/-- Every triangle produced by an insertion step is either an old triangle
    or built from an edge of an old triangle plus the inserted index. -/
theorem mem_insertPoint (allPts : List Point) (tris : List Tri) (idx : ℕ)
    (pt : Point) (t : Tri) (ht : t ∈ insertPoint allPts tris idx pt) :
    t ∈ tris ∨ ∃ s ∈ tris, ∃ e ∈ triEdges s, t = ⟨e.1, e.2, idx⟩ := by
  simp only [insertPoint, List.mem_append] at ht
  rcases ht with h | h
  · left
    rcases List.mem_map.mp h with ⟨it, hit, rfl⟩
    have hmem : it ∈ tris.enum := (List.mem_filter.mp hit).1
    have h2 : it.2 ∈ tris.enum.map Prod.snd := List.mem_map_of_mem Prod.snd hmem
    rwa [List.enum_map_snd] at h2
  · right
    rcases List.mem_map.mp h with ⟨e, he, rfl⟩
    rcases List.mem_flatten.mp he with ⟨es, hes, hees⟩
    rcases List.mem_map.mp hes with ⟨it, hit, rfl⟩
    have hmem : it ∈ tris.enum := (List.mem_filter.mp hit).1
    have h2 : it.2 ∈ tris.enum.map Prod.snd := List.mem_map_of_mem Prod.snd hmem
    rw [List.enum_map_snd] at h2
    exact ⟨it.2, h2, e, (List.mem_filter.mp hees).1, rfl⟩

/-- An edge of a triangle is one of its three ordered vertex pairs. -/
theorem triEdges_cases (s : Tri) (e : ℕ × ℕ) (he : e ∈ triEdges s) :
    (e.1 = s.i ∧ e.2 = s.j) ∨ (e.1 = s.j ∧ e.2 = s.k) ∨
      (e.1 = s.k ∧ e.2 = s.i) := by
  simp only [triEdges, List.mem_cons, List.not_mem_nil, or_false] at he
  rcases he with rfl | rfl | rfl
  · exact Or.inl ⟨rfl, rfl⟩
  · exact Or.inr (Or.inl ⟨rfl, rfl⟩)
  · exact Or.inr (Or.inr ⟨rfl, rfl⟩)

/-- One insertion step preserves the loop invariant. -/
theorem insertPoint_invariant (n m : ℕ) (hmn : m < n) (allPts : List Point)
    (pt : Point) (tris : List Tri) (h : ∀ t ∈ tris, TriOK n m t) :
    ∀ t ∈ insertPoint allPts tris m pt, TriOK n (m + 1) t := by
  intro t ht
  rcases mem_insertPoint allPts tris m pt t ht with h1 | ⟨s, hs, e, he, rfl⟩
  · obtain ⟨hi, hj, hk, hij, hik, hjk⟩ := h t h1
    exact ⟨by omega, by omega, by omega, hij, hik, hjk⟩
  · obtain ⟨hi, hj, hk, hij, hik, hjk⟩ := h s hs
    rcases triEdges_cases s e he with ⟨h1, h2⟩ | ⟨h1, h2⟩ | ⟨h1, h2⟩ <;>
      · unfold TriOK
        dsimp only
        omega

/-- The loop invariant holds after the first `m` insertions. -/
theorem delaunayLoop_invariant (n : ℕ) (allPts points : List Point) (m : ℕ)
    (hm : m ≤ n) :
    ∀ t ∈ (List.range m).foldl
      (fun tris i => insertPoint allPts tris i (points.getD i default))
      [⟨n, n + 1, n + 2⟩], TriOK n m t := by
  induction m with
  | zero =>
    intro t ht
    simp only [List.range_zero, List.foldl_nil, List.mem_singleton] at ht
    subst ht
    unfold TriOK
    dsimp only
    omega
  | succ m ih =>
    intro t ht
    rw [List.range_succ, List.foldl_append] at ht
    simp only [List.foldl_cons, List.foldl_nil] at ht
    exact insertPoint_invariant n m (by omega) allPts _ _ (ih (by omega)) t ht

/-- Claim C7: every index triple returned by `computeDelaunay` has all three
    indices strictly below the number of input points (no super-triangle
    vertex survives the final filter) and pairwise distinct; for fewer than
    3 input points the result is the empty triangulation.  (The index and
    distinctness guarantees hold for every input, which subsumes the
    claimed `N ≥ 3 non-collinear` case.) -/
theorem computeDelaunay_valid (points : List Point) :
    (points.length < 3 → computeDelaunay points = []) ∧
    ∀ t ∈ computeDelaunay points,
      t.1 < points.length ∧ t.2.1 < points.length ∧ t.2.2 < points.length ∧
      t.1 ≠ t.2.1 ∧ t.1 ≠ t.2.2 ∧ t.2.1 ≠ t.2.2 := by
  constructor
  · intro h
    simp only [computeDelaunay]
    rw [if_pos h]
  · intro t ht
    by_cases h3 : points.length < 3
    · have : computeDelaunay points = [] := by
        simp only [computeDelaunay]
        rw [if_pos h3]
      rw [this] at ht
      cases ht
    · simp only [computeDelaunay] at ht
      rw [if_neg h3] at ht
      rcases List.mem_map.mp ht with ⟨s, hsmem, rfl⟩
      have hfil := List.mem_filter.mp hsmem
      have hbool := hfil.2
      simp only [Bool.and_eq_true, decide_eq_true_eq] at hbool
      have hOK := delaunayLoop_invariant points.length _ points points.length
        (le_refl _) s hfil.1
      obtain ⟨_, _, _, hij, hik, hjk⟩ := hOK
      exact ⟨hbool.1.1, hbool.1.2, hbool.2, hij, hik, hjk⟩

/-- Witness for C7: the 2-point input gives the empty triangulation, and on
    a concrete 3-point input the returned triangle (0,1,2) has in-range,
    pairwise-distinct indices. -/
theorem computeDelaunay_valid_witness :
    computeDelaunay [⟨0, 0⟩, ⟨1, 1⟩] = [] ∧
      (0 : ℕ) < ([⟨0, 0⟩, ⟨4, 0⟩, ⟨0, 4⟩] : List Point).length ∧
      (0 : ℕ) ≠ (1 : ℕ) := by
  have hmem : ((0, 1, 2) : ℕ × ℕ × ℕ) ∈
      computeDelaunay [⟨0, 0⟩, ⟨4, 0⟩, ⟨0, 4⟩] := by
    rw [show computeDelaunay [(⟨0, 0⟩ : Point), ⟨4, 0⟩, ⟨0, 4⟩] = [(0, 1, 2)] from by
      norm_num [computeDelaunay, insertPoint, inCircumcircle, superTri, bboxMinX,
        bboxMaxX, bboxMinY, bboxMaxY, triEdges, edgeEq, edgeSharedWithOther,
        List.foldl, List.range_succ, List.enum, List.enumFrom, List.filter,
        List.map, List.flatten, List.getD, min_def, max_def]]
    exact List.mem_singleton.mpr rfl
  exact ⟨(computeDelaunay_valid [⟨0, 0⟩, ⟨1, 1⟩]).1 (by decide),
    ((computeDelaunay_valid [⟨0, 0⟩, ⟨4, 0⟩, ⟨0, 4⟩]).2 (0, 1, 2) hmem).1,
    ((computeDelaunay_valid [⟨0, 0⟩, ⟨4, 0⟩, ⟨0, 4⟩]).2 (0, 1, 2) hmem).2.2.2.1⟩

/-- A single loop step leaves every buffer entry untouched whose index is
    not one of the 4 channels of an in-canvas, in-triangle pixel. -/
theorem warpStep_preserves (w h : ℕ) (img1 img2 : ℤ → ℚ) (M1 M2 : Affine)
    (dstTri : Tri3) (t : ℚ) (n : ℤ)
    (hn : ∀ x y : ℤ, 0 ≤ x → x < (w : ℤ) → 0 ≤ y → y < (h : ℤ) →
      pointInTriangle ⟨(x : ℚ), (y : ℚ)⟩ dstTri = true →
      ∀ c : ℤ, 0 ≤ c → c < 4 → n ≠ (y * (w : ℤ) + x) * 4 + c)
    (q : ℤ × ℤ) (buf : ℤ → ℚ) :
    warpStep w h img1 img2 M1 M2 dstTri t buf q n = buf n := by
  unfold warpStep
  by_cases hcond : 0 ≤ q.1 ∧ q.1 < (w : ℤ) ∧ 0 ≤ q.2 ∧ q.2 < (h : ℤ) ∧
      pointInTriangle ⟨(q.1 : ℚ), (q.2 : ℚ)⟩ dstTri = true
  · obtain ⟨c1, c2, c3, c4, c5⟩ := hcond
    have h0 := hn q.1 q.2 c1 c2 c3 c4 c5 0 (by omega) (by omega)
    have h1 := hn q.1 q.2 c1 c2 c3 c4 c5 1 (by omega) (by omega)
    have h2 := hn q.1 q.2 c1 c2 c3 c4 c5 2 (by omega) (by omega)
    have h3 := hn q.1 q.2 c1 c2 c3 c4 c5 3 (by omega) (by omega)
    rw [if_pos ⟨c1, c2, c3, c4, c5⟩]
    simp only [writePixel]
    rw [if_neg (by omega), if_neg (by omega), if_neg (by omega),
      if_neg (by omega)]
  · rw [if_neg hcond]

/-- Folding the loop step over any pixel list preserves such entries. -/
theorem foldl_warpStep_frame (w h : ℕ) (img1 img2 : ℤ → ℚ) (M1 M2 : Affine)
    (dstTri : Tri3) (t : ℚ) (n : ℤ)
    (hn : ∀ x y : ℤ, 0 ≤ x → x < (w : ℤ) → 0 ≤ y → y < (h : ℤ) →
      pointInTriangle ⟨(x : ℚ), (y : ℚ)⟩ dstTri = true →
      ∀ c : ℤ, 0 ≤ c → c < 4 → n ≠ (y * (w : ℤ) + x) * 4 + c) :
    ∀ (l : List (ℤ × ℤ)) (buf : ℤ → ℚ),
      l.foldl (warpStep w h img1 img2 M1 M2 dstTri t) buf n = buf n := by
  intro l
  induction l with
  | nil =>
    intro buf
    rfl
  | cons q l ih =>
    intro buf
    rw [List.foldl_cons, ih]
    exact warpStep_preserves w h img1 img2 M1 M2 dstTri t n hn q buf

/-- Claim C8: `warpTriangle` modifies only output-buffer entries belonging
    to pixels that are inside the canvas bounds and inside the destination
    triangle per the barycentric test; every other output entry keeps its
    previous value.  (The source buffers are read-only by construction in
    this embedding, as in the source, which only calls `sampleBilinear` on
    them.) -/
theorem warpTriangle_frame (w h : ℕ) (img1 img2 : ℤ → ℚ)
    (srcTri1 srcTri2 dstTri : Tri3) (out : ℤ → ℚ) (t : ℚ) (n : ℤ)
    (hn : ∀ x y : ℤ, 0 ≤ x → x < (w : ℤ) → 0 ≤ y → y < (h : ℤ) →
      pointInTriangle ⟨(x : ℚ), (y : ℚ)⟩ dstTri = true →
      ∀ c : ℤ, 0 ≤ c → c < 4 → n ≠ (y * (w : ℤ) + x) * 4 + c) :
    warpTriangle w h img1 srcTri1 img2 srcTri2 out dstTri t n = out n := by
  simp only [warpTriangle]
  exact foldl_warpStep_frame w h img1 img2 _ _ dstTri t n hn _ out

/-- Witness for C8: on a 1×1 canvas, the out-of-buffer index 100 is
    untouched. -/
theorem warpTriangle_frame_witness :
    warpTriangle 1 1 (fun _ => 0) ⟨⟨0, 0⟩, ⟨0, 0⟩, ⟨0, 0⟩⟩ (fun _ => 0)
      ⟨⟨0, 0⟩, ⟨0, 0⟩, ⟨0, 0⟩⟩ (fun _ => 0) ⟨⟨0, 0⟩, ⟨0, 1⟩, ⟨1, 0⟩⟩
      (1 / 2) 100 = 0 :=
  warpTriangle_frame 1 1 (fun _ => 0) (fun _ => 0) ⟨⟨0, 0⟩, ⟨0, 0⟩, ⟨0, 0⟩⟩
    ⟨⟨0, 0⟩, ⟨0, 0⟩, ⟨0, 0⟩⟩ ⟨⟨0, 0⟩, ⟨0, 1⟩, ⟨1, 0⟩⟩ (fun _ => 0) (1 / 2) 100
    (by
      intro x y hx hxw hy hyh _ c hc hcw
      omega)
